import Mathlib

/-
Shallow embedding of the BitFlash_Client OTA update agent
(src/src/BitFlash_Client.cpp, second variant, together with the class
declaration in the examples file).  External collaborators (WiFi, HTTP
transport, JSON parser, flash programmer, clock) are modelled as oracle
record fields describing the outcome of each call; the client's own
control flow, observer notifications and flash-programming calls are
modelled exactly, with the sequence of collaborator calls recorded as an
event trace.
-/

namespace BitFlash

/-! ## Version comparator (`compareVersions`, lines 600-620)

`sscanf(v, "%d.%d.%d", &major, &minor, &patch)` is modelled faithfully:
`%d` skips whitespace, accepts an optional sign and a maximal run of
digits; a literal `.` must match exactly; scanning stops at the first
failing directive, leaving the remaining `int` variables at their
indeterminate (uninitialised stack) values, which we represent by an
explicit `ScanEnv`. -/

/-- Characters skipped by the `%d` directive before a number. -/
def isScanSpace (c : Char) : Bool :=
  c = ' ' || c = '\t' || c = '\n' || c = '\r' || c = '\x0b' || c = '\x0c'

def skipWs : List Char → List Char
  | [] => []
  | c :: rest => if isScanSpace c then skipWs rest else c :: rest

/-- Maximal run of decimal digits at the head of the input. -/
def takeDigits : List Char → List Char × List Char
  | [] => ([], [])
  | c :: rest =>
    if c.isDigit then
      let r := takeDigits rest
      (c :: r.1, r.2)
    else ([], c :: rest)

def digitsVal (ds : List Char) : Nat :=
  ds.foldl (fun a c => a * 10 + (c.toNat - 48)) 0

/-- One `%d` directive: skip whitespace, optional sign, at least one digit. -/
def scanInt (s : List Char) : Option (Int × List Char) :=
  let s1 := skipWs s
  match s1 with
  | '-' :: rest =>
    match takeDigits rest with
    | ([], _) => none
    | (ds, r) => some (-(digitsVal ds : Int), r)
  | '+' :: rest =>
    match takeDigits rest with
    | ([], _) => none
    | (ds, r) => some ((digitsVal ds : Int), r)
  | _ =>
    match takeDigits s1 with
    | ([], _) => none
    | (ds, r) => some ((digitsVal ds : Int), r)

/-- The fields successfully assigned by `sscanf(v, "%d.%d.%d", ...)`,
in order (between zero and three of them). -/
def scanVersion (s : List Char) : List Int :=
  match scanInt s with
  | none => []
  | some (a, r1) =>
    match r1 with
    | '.' :: r2 =>
      match scanInt r2 with
      | none => [a]
      | some (b, r3) =>
        match r3 with
        | '.' :: r4 =>
          match scanInt r4 with
          | none => [a, b]
          | some (c, _) => [a, b, c]
        | _ => [a, b]
    | _ => [a]

/-- Indeterminate values of the six uninitialised stack `int`s of
`compareVersions`; a field keeps this value when its `sscanf` directive
does not match. -/
structure ScanEnv where
  a1 : Int
  b1 : Int
  c1 : Int
  a2 : Int
  b2 : Int
  c2 : Int
  deriving DecidableEq

/-- Value of the `i`-th scanned field, falling back to the indeterminate
stack value `d` when fewer than `i + 1` fields were assigned. -/
def fieldOr (l : List Int) (i : Nat) (d : Int) : Int :=
  (l.get? i).getD d

/-- `BitFlash_Client::compareVersions` (lines 600-620). -/
def compareVersions (v1 v2 : String) (env : ScanEnv) : Int :=
  let f1 := scanVersion v1.data
  let f2 := scanVersion v2.data
  let major1 := fieldOr f1 0 env.a1
  let minor1 := fieldOr f1 1 env.b1
  let patch1 := fieldOr f1 2 env.c1
  let major2 := fieldOr f2 0 env.a2
  let minor2 := fieldOr f2 1 env.b2
  let patch2 := fieldOr f2 2 env.c2
  if major1 ≠ major2 then major1 - major2
  else if minor1 ≠ minor2 then minor1 - minor2
  else patch1 - patch2

/-! ## Events and oracle worlds -/

/-- Observable actions of one client run: observer-callback invocations,
transport release (`https->end()`), and the flash-programming calls. -/
inductive Event where
  | notify (status : String) (progress : Int)
  | httpEnd
  | updateBegin (size : Int)
  | updateWrite (n : Nat)
  | updateAbort
  | updateEnd
  | restart
  deriving DecidableEq

/-- `notifyCallback` (lines 594-598): the observer is invoked only when a
callback has been registered; with none registered the call is a no-op. -/
def notifyE (hasCb : Bool) (status : String) (progress : Int) : List Event :=
  if hasCb then [Event.notify status progress] else []

/-- `String::startsWith`. -/
def strStarts (s p : String) : Bool :=
  p.data.isPrefixOf s.data

/-- `createClient` / `createHTTPClient` succeed exactly when the URL
scheme is `https://` or `http://`; any other scheme notifies
"Invalid URL protocol" and fails (lines 364-415). -/
def clientProtocolOk (url : String) : Bool :=
  strStarts url "https://" || strStarts url "http://"

def u32Mod : Nat := 4294967296

/-- Conversion of a 32-bit unsigned value to a (two's complement) `int`,
as in `int progress = (written * 100) / contentLength;`. -/
def u32ToInt (q : Nat) : Int :=
  if q < 2147483648 then (q : Int) else (q : Int) - 4294967296

/-- Oracle for one `checkVersion` fetch: HTTP status of the GET,
whether `deserializeJson` succeeds, the `version` / `firmware_url`
fields of the response (absent fields are `none`), and the
indeterminate stack values seen by `compareVersions`. -/
structure FetchWorld where
  httpCode : Int
  parseOk : Bool
  version : Option String
  firmwareUrl : Option String
  env : ScanEnv

/-- Oracle for one `performUpdate` download: HTTP status, advertised
content length (`https->getSize()`, a C `int`), the sizes returned by
successive `stream->available()` observations while the connection is
open (the connection closes when the list is exhausted), and the results
of `Update.begin` / `Update.end`. -/
structure DlWorld where
  httpCode : Int
  contentLength : Int
  chunks : List Nat
  beginOk : Bool
  endOk : Bool

/-- `Config` (class declaration in the examples file). -/
structure Config where
  ssid : String
  password : String
  currentVersion : String
  jsonEndpoint : String
  checkInterval : Nat
  autoConnect : Bool
  verifySSL : Bool

/-! ## Flash installer (`performUpdate`, lines 472-548) -/

/-- The download loop (lines 513-526): while the transport is connected
and `written < contentLength`, read `min(available, 1024)` bytes, write
them to flash, and notify progress `(written * 100) / contentLength`
computed in 32-bit `size_t` arithmetic.  Zero-size observations only
yield. -/
def dlLoop (hasCb : Bool) (cl : Nat) : List Nat → Nat → Nat × List Event
  | [], w => (w, [])
  | c :: rest, w =>
    if w < cl then
      if c = 0 then dlLoop hasCb cl rest w
      else
        let n := min c 1024
        let w2 := w + n
        let p := u32ToInt (w2 * 100 % u32Mod / cl)
        let r := dlLoop hasCb cl rest w2
        (r.1, Event.updateWrite n :: (notifyE hasCb "Downloading update" p ++ r.2))
    else (w, [])

/-- Outcome of `performUpdate`: the returned `bool`, the value of
`_updateInProgress` on exit, the event trace, and whether the terminal
`ESP.restart()` was reached (after which control never returns). -/
structure UpdResult where
  ret : Bool
  inProgress : Bool
  events : List Event
  restarted : Bool
  deriving DecidableEq

/-- `BitFlash_Client::performUpdate` (lines 472-548). -/
def performUpdate (url : String) (dw : DlWorld) (hasCb : Bool) : UpdResult :=
  if clientProtocolOk url = false then
    ⟨false, false, notifyE hasCb "Invalid URL protocol" (-1), false⟩
  else if dw.httpCode ≠ 200 then
    ⟨false, false, notifyE hasCb "Failed to download firmware" (-1) ++ [Event.httpEnd], false⟩
  else if dw.contentLength ≤ 0 then
    ⟨false, false, notifyE hasCb "Invalid firmware size" (-1) ++ [Event.httpEnd], false⟩
  else if dw.beginOk = false then
    ⟨false, false, notifyE hasCb "Not enough space for update" (-1) ++ [Event.httpEnd], false⟩
  else
    let cl := dw.contentLength.toNat
    let r := dlLoop hasCb cl dw.chunks 0
    let evs := Event.updateBegin dw.contentLength :: (r.2 ++ [Event.httpEnd])
    if r.1 ≠ cl then
      ⟨false, false, evs ++ (notifyE hasCb "Download incomplete" (-1) ++ [Event.updateAbort]), false⟩
    else if dw.endOk = false then
      ⟨false, false, evs ++ (Event.updateEnd :: notifyE hasCb "Update failed" (-1)), false⟩
    else
      ⟨true, true,
        evs ++ (Event.updateEnd :: (notifyE hasCb "Update complete, restarting..." (-1) ++ [Event.restart])),
        true⟩

/-! ## Metadata fetcher (`checkVersion`, lines 417-470) -/

/-- Outcome of `checkVersion`, additionally recording whether
`performUpdate` was invoked. -/
structure RunResult where
  ret : Bool
  inProgress : Bool
  events : List Event
  restarted : Bool
  installAttempted : Bool
  deriving DecidableEq

/-- `BitFlash_Client::checkVersion` (lines 417-470). -/
def checkVersion (cfg : Config) (fw : FetchWorld) (dw : DlWorld) (hasCb : Bool) : RunResult :=
  if clientProtocolOk cfg.jsonEndpoint = false then
    ⟨false, false, notifyE hasCb "Invalid URL protocol" (-1), false, false⟩
  else if fw.httpCode ≠ 200 then
    ⟨false, false, notifyE hasCb "Failed to fetch version info" (-1) ++ [Event.httpEnd], false, false⟩
  else if fw.parseOk = false then
    ⟨false, false, Event.httpEnd :: notifyE hasCb "Failed to parse version info" (-1), false, false⟩
  else if fw.version.isNone || fw.firmwareUrl.isNone then
    ⟨false, false, Event.httpEnd :: notifyE hasCb "Invalid version info format" (-1), false, false⟩
  else if compareVersions cfg.currentVersion (fw.version.getD "") fw.env < 0 then
    let r := performUpdate (fw.firmwareUrl.getD "") dw hasCb
    ⟨r.ret, r.inProgress, Event.httpEnd :: r.events, r.restarted, true⟩
  else
    ⟨false, false, [Event.httpEnd], false, false⟩

/-! ## Orchestrator (`handle` / `checkForUpdate`, lines 347-363) -/

/-- Oracle for one full cycle: WiFi status and connect outcome, then the
fetch and download oracles. -/
structure CycleWorld where
  wifiConnected : Bool
  connectOk : Bool
  fetch : FetchWorld
  dl : DlWorld

structure CFUResult where
  inProgress : Bool
  events : List Event
  restarted : Bool
  deriving DecidableEq

/-- `BitFlash_Client::checkForUpdate` (lines 354-363), entered with the
in-progress flag clear.  `ESP.restart()` is terminal, so the
"Update available" notification is only reached when `checkVersion`
returned without restarting. -/
def checkForUpdate (cfg : Config) (cw : CycleWorld) (hasCb : Bool) : CFUResult :=
  if cw.wifiConnected = false && cw.connectOk = false then
    ⟨false, notifyE hasCb "WiFi connection failed" (-1), false⟩
  else
    let r := checkVersion cfg cw.fetch cw.dl hasCb
    if r.restarted then ⟨r.inProgress, r.events, true⟩
    else if r.ret then ⟨r.inProgress, r.events ++ notifyE hasCb "Update available" (-1), false⟩
    else ⟨r.inProgress, r.events, false⟩

/-- `_lastCheck` and `_updateInProgress`. -/
structure ClientState where
  lastCheck : Nat
  updateInProgress : Bool
  deriving DecidableEq

/-- One poll tick: `millis()` at the guard, `millis()` after the cycle,
and the cycle's oracle. -/
structure TickWorld where
  now : Nat
  nowAfter : Nat
  cycle : CycleWorld

/-- `millis() - _lastCheck` in 32-bit unsigned arithmetic. -/
def elapsedMs (now last : Nat) : Nat :=
  (now % u32Mod + u32Mod - last % u32Mod) % u32Mod

structure StepResult where
  state : ClientState
  events : List Event
  started : Bool
  restarted : Bool
  deriving DecidableEq

/-- `BitFlash_Client::handle` (lines 347-352): start a cycle only when
no update is in progress and the check interval has elapsed; afterwards
record `millis()` as the new `_lastCheck` (unreachable when the cycle
ended in the terminal restart). -/
def handleStep (cfg : Config) (st : ClientState) (t : TickWorld) (hasCb : Bool) : StepResult :=
  if st.updateInProgress = false ∧ cfg.checkInterval ≤ elapsedMs t.now st.lastCheck then
    let r := checkForUpdate cfg t.cycle hasCb
    if r.restarted then ⟨⟨st.lastCheck, r.inProgress⟩, r.events, true, true⟩
    else ⟨⟨t.nowAfter % u32Mod, r.inProgress⟩, r.events, true, false⟩
  else ⟨st, [], false, false⟩

/-- A sequence of `handle` calls from the host loop; a terminal restart
ends the sequence.  Returns the final state, the concatenated event
trace, and the number of cycles started. -/
def handleSeq (cfg : Config) (hasCb : Bool) : ClientState → List TickWorld → ClientState × List Event × Nat
  | st, [] => (st, [], 0)
  | st, t :: rest =>
    let r := handleStep cfg st t hasCb
    if r.restarted then (r.state, r.events, if r.started then 1 else 0)
    else
      let s2 := handleSeq cfg hasCb r.state rest
      (s2.1, r.events ++ s2.2.1, (if r.started then 1 else 0) + s2.2.2)

/-! ## Lemmas about the comparator -/

/-- Lexicographic order on (major, minor, patch) triples. -/
def lexLtTriple (x y : Int × Int × Int) : Prop :=
  x.1 < y.1 ∨ (x.1 = y.1 ∧ (x.2.1 < y.2.1 ∨ (x.2.1 = y.2.1 ∧ x.2.2 < y.2.2)))

instance (x y : Int × Int × Int) : Decidable (lexLtTriple x y) := by
  unfold lexLtTriple; infer_instance

lemma compareVersions_self (a : String) (env : ScanEnv)
    (h : (scanVersion a.data).length = 3) : compareVersions a a env = 0 := by
  obtain ⟨x, y, z, hx⟩ := List.length_eq_three.mp h
  unfold compareVersions
  rw [hx]
  simp [fieldOr]

/-- C2 counterexample: on the fully-parsing non-negative inputs "1.0.0"
and "3.0.0" the comparator returns -2, which is not in {-1, 0, 1}. -/
theorem compareVersions_unit_range_cex :
    compareVersions "1.0.0" "3.0.0" ⟨0, 0, 0, 0, 0, 0⟩ = -2 ∧
    compareVersions "1.0.0" "3.0.0" ⟨0, 0, 0, 0, 0, 0⟩ ≠ -1 ∧
    compareVersions "1.0.0" "3.0.0" ⟨0, 0, 0, 0, 0, 0⟩ ≠ 0 ∧
    compareVersions "1.0.0" "3.0.0" ⟨0, 0, 0, 0, 0, 0⟩ ≠ 1 := by
  decide

/-- C2 (amended): for version strings that each fully parse as a
major.minor.patch triple of non-negative integers, the sign of
`compareVersions a b` is negative exactly when a's triple precedes b's
lexicographically, zero exactly when the triples are equal, and positive
exactly when a's triple follows b's; the value itself is a component
difference, not restricted to {-1, 0, 1}. -/
theorem compareVersions_sign_correct (a b : String) (env : ScanEnv)
    (x1 y1 z1 x2 y2 z2 : Int)
    (ha : scanVersion a.data = [x1, y1, z1])
    (hb : scanVersion b.data = [x2, y2, z2])
    (hx1 : 0 ≤ x1) (hy1 : 0 ≤ y1) (hz1 : 0 ≤ z1)
    (hx2 : 0 ≤ x2) (hy2 : 0 ≤ y2) (hz2 : 0 ≤ z2) :
    (compareVersions a b env < 0 ↔ lexLtTriple (x1, y1, z1) (x2, y2, z2)) ∧
    (compareVersions a b env = 0 ↔ (x1 = x2 ∧ y1 = y2 ∧ z1 = z2)) ∧
    (0 < compareVersions a b env ↔ lexLtTriple (x2, y2, z2) (x1, y1, z1)) := by
  unfold compareVersions
  rw [ha, hb]
  simp only [fieldOr, List.get?_cons_zero, List.get?_cons_succ, Option.getD_some, lexLtTriple]
  split_ifs <;> constructor <;> try constructor
  all_goals omega

theorem compareVersions_sign_correct_witness :
    compareVersions "1.2.3" "1.2.4" ⟨0, 0, 0, 0, 0, 0⟩ < 0 := by
  have h := compareVersions_sign_correct "1.2.3" "1.2.4" ⟨0, 0, 0, 0, 0, 0⟩
    1 2 3 1 2 4 (by decide) (by decide)
    (by decide) (by decide) (by decide) (by decide) (by decide) (by decide)
  exact h.1.mpr (by decide)

/-- C9 counterexample: when the inputs do not parse, the result depends
on the indeterminate stack values of the six uninitialised `int`s, so
two invocations with identical arguments can return different values. -/
theorem compareVersions_env_dependent_cex :
    compareVersions "x" "x" ⟨0, 0, 0, 0, 0, 0⟩ ≠
      compareVersions "x" "x" ⟨1, 0, 0, 0, 0, 0⟩ := by
  decide

/-- C9 (amended): `compareVersions` mutates no client state, and it is
deterministic — independent of the indeterminate stack contents —
whenever both inputs fully parse as major.minor.patch triples; when an
input fails to parse, the unassigned components take indeterminate
values and the result is not determined by the arguments alone. -/
theorem compareVersions_env_independent (v1 v2 : String) (e e' : ScanEnv)
    (h1 : (scanVersion v1.data).length = 3)
    (h2 : (scanVersion v2.data).length = 3) :
    compareVersions v1 v2 e = compareVersions v1 v2 e' := by
  obtain ⟨x1, y1, z1, hx⟩ := List.length_eq_three.mp h1
  obtain ⟨x2, y2, z2, hy⟩ := List.length_eq_three.mp h2
  unfold compareVersions
  rw [hx, hy]
  simp [fieldOr]

theorem compareVersions_env_independent_witness :
    compareVersions "1.0.0" "2.0.0" ⟨0, 0, 0, 0, 0, 0⟩ =
      compareVersions "1.0.0" "2.0.0" ⟨7, 7, 7, 7, 7, 7⟩ := by
  exact compareVersions_env_independent "1.0.0" "2.0.0" _ _ (by decide) (by decide)

/-! ## Claim C1: update gating -/

/-- C1: in a cycle whose metadata fetch and parse succeed,
`performUpdate` is invoked iff `compareVersions(current, latest) < 0`;
in particular, when the fetched version string equals the configured
current version (which, per the configuration invariant, parses as a
triple) no install attempt occurs and the cycle ends idle. -/
theorem checkVersion_gates_install (cfg : Config) (fw : FetchWorld) (dw : DlWorld)
    (hasCb : Bool) (lv fu : String)
    (hproto : clientProtocolOk cfg.jsonEndpoint = true)
    (hcode : fw.httpCode = 200)
    (hparse : fw.parseOk = true)
    (hv : fw.version = some lv)
    (hu : fw.firmwareUrl = some fu) :
    ((checkVersion cfg fw dw hasCb).installAttempted = true ↔
      compareVersions cfg.currentVersion lv fw.env < 0) ∧
    ((scanVersion cfg.currentVersion.data).length = 3 → lv = cfg.currentVersion →
      (checkVersion cfg fw dw hasCb).installAttempted = false ∧
      (checkVersion cfg fw dw hasCb).ret = false ∧
      (checkVersion cfg fw dw hasCb).inProgress = false) := by
  unfold checkVersion
  rw [hv, hu, hproto, hcode, hparse]
  constructor
  · by_cases hc : compareVersions cfg.currentVersion lv fw.env < 0 <;> simp [hc]
  · intro hlen heq
    have h0 : compareVersions cfg.currentVersion lv fw.env = 0 := by
      rw [heq]; exact compareVersions_self cfg.currentVersion fw.env hlen
    simp [h0]

theorem checkVersion_gates_install_witness :
    (checkVersion ⟨"s", "p", "1.0.0", "http://e", 1000, true, false⟩
        ⟨200, true, some "1.0.0", some "http://f", ⟨0, 0, 0, 0, 0, 0⟩⟩
        ⟨200, 10, [10], true, true⟩ true).installAttempted = false := by
  have h := checkVersion_gates_install ⟨"s", "p", "1.0.0", "http://e", 1000, true, false⟩
    ⟨200, true, some "1.0.0", some "http://f", ⟨0, 0, 0, 0, 0, 0⟩⟩
    ⟨200, 10, [10], true, true⟩ true "1.0.0" "http://f"
    (by decide) rfl rfl rfl rfl
  exact (h.2 (by decide) rfl).1

/-! ## Claim C7: metadata field check -/

/-- C7 counterexample: an empty-but-present `version` field is not
rejected — the code checks only for null pointers — so with
`version = ""` the malformed-metadata notification is never emitted and
an install attempt occurs (here failing later, at the download). -/
theorem checkVersion_empty_field_cex :
    (checkVersion ⟨"s", "p", "1.0.0", "http://e", 1000, true, false⟩
        ⟨200, true, some "", some "http://f", ⟨0, 0, 0, 99, 0, 0⟩⟩
        ⟨404, 0, [], true, true⟩ true).installAttempted = true ∧
    (checkVersion ⟨"s", "p", "1.0.0", "http://e", 1000, true, false⟩
        ⟨200, true, some "", some "http://f", ⟨0, 0, 0, 99, 0, 0⟩⟩
        ⟨404, 0, [], true, true⟩ true).events =
      [Event.httpEnd, Event.notify "Failed to download firmware" (-1), Event.httpEnd] := by
  decide

/-- C7 (amended): the metadata check requires both the `version` and
`firmware_url` fields to be present (non-null); if either is absent the
cycle fails with the "Invalid version info format" notification, the
in-progress flag is cleared and no install attempt occurs.  An
empty-but-present field passes the check. -/
theorem checkVersion_missing_field (cfg : Config) (fw : FetchWorld) (dw : DlWorld)
    (hproto : clientProtocolOk cfg.jsonEndpoint = true)
    (hcode : fw.httpCode = 200)
    (hparse : fw.parseOk = true)
    (hmiss : fw.version = none ∨ fw.firmwareUrl = none) :
    (checkVersion cfg fw dw true).ret = false ∧
    (checkVersion cfg fw dw true).installAttempted = false ∧
    (checkVersion cfg fw dw true).inProgress = false ∧
    (checkVersion cfg fw dw true).events =
      [Event.httpEnd, Event.notify "Invalid version info format" (-1)] := by
  unfold checkVersion
  rw [hproto, hcode, hparse]
  rcases hmiss with hm | hm <;> rw [hm]
  · simp [notifyE]
  · cases hv : fw.version <;> simp [notifyE]

theorem checkVersion_missing_field_witness :
    (checkVersion ⟨"s", "p", "1.0.0", "http://e", 1000, true, false⟩
        ⟨200, true, some "9.9.9", none, ⟨0, 0, 0, 0, 0, 0⟩⟩
        ⟨200, 10, [10], true, true⟩ true).events =
      [Event.httpEnd, Event.notify "Invalid version info format" (-1)] := by
  exact (checkVersion_missing_field ⟨"s", "p", "1.0.0", "http://e", 1000, true, false⟩
    ⟨200, true, some "9.9.9", none, ⟨0, 0, 0, 0, 0, 0⟩⟩
    ⟨200, 10, [10], true, true⟩ (by decide) rfl rfl (Or.inr rfl)).2.2.2

/-! ## Lemmas about the download loop -/

lemma dlLoop_mem (hasCb : Bool) (cl : Nat) : ∀ (ch : List Nat) (w : Nat) (e : Event),
    e ∈ (dlLoop hasCb cl ch w).2 →
    (∃ n, e = Event.updateWrite n) ∨
    (hasCb = true ∧ ∃ p, e = Event.notify "Downloading update" p) := by
  intro ch
  induction ch with
  | nil => intro w e h; simp [dlLoop] at h
  | cons c rest ih =>
    intro w e h
    simp only [dlLoop] at h
    split at h
    · split at h
      · exact ih _ _ h
      · simp only [List.mem_cons, List.mem_append] at h
        rcases h with h | h | h
        · exact Or.inl ⟨_, h⟩
        · unfold notifyE at h
          split at h
          · simp only [List.mem_singleton] at h
            exact Or.inr ⟨by assumption, _, h⟩
          · simp at h
        · exact ih _ _ h
    · simp at h

/-- The loop's byte count does not depend on whether a callback is
registered. -/
lemma dlLoop_fst_cb (cl : Nat) : ∀ (ch : List Nat) (w : Nat) (hasCb : Bool),
    (dlLoop hasCb cl ch w).1 = (dlLoop true cl ch w).1 := by
  intro ch
  induction ch with
  | nil => intro w hasCb; rfl
  | cons c rest ih =>
    intro w hasCb
    simp only [dlLoop]
    split
    · split
      · exact ih _ _
      · exact ih _ _
    · rfl

/-! ## Claim C3: incomplete download aborts, never commits -/

/-- C3: when the download loop ends with a byte count different from the
advertised length, `performUpdate` fails, clears the in-progress flag,
never calls the flash commit (`Update.end`), and — after the transport
has already been released — notifies "Download incomplete" and aborts
the pending flash write, in that order. -/
theorem performUpdate_incomplete (url : String) (dw : DlWorld)
    (hproto : clientProtocolOk url = true)
    (hcode : dw.httpCode = 200)
    (hcl : 0 < dw.contentLength)
    (hbegin : dw.beginOk = true)
    (hneq : (dlLoop true dw.contentLength.toNat dw.chunks 0).1 ≠ dw.contentLength.toNat) :
    (performUpdate url dw true).ret = false ∧
    (performUpdate url dw true).inProgress = false ∧
    Event.updateEnd ∉ (performUpdate url dw true).events ∧
    (∃ pre, (performUpdate url dw true).events =
      pre ++ [Event.httpEnd, Event.notify "Download incomplete" (-1), Event.updateAbort]) := by
  have hne : ¬ dw.contentLength ≤ 0 := not_le.mpr hcl
  have hloop : Event.updateEnd ∉ (dlLoop true dw.contentLength.toNat dw.chunks 0).2 := by
    intro h
    rcases dlLoop_mem true dw.contentLength.toNat dw.chunks 0 Event.updateEnd h with
      ⟨n, hn⟩ | ⟨_, p, hp⟩
    · exact Event.noConfusion hn
    · exact Event.noConfusion hp
  simp only [performUpdate, hproto, hcode, hbegin, hne, hneq, notifyE, if_true, if_false,
    ite_true, ite_false, ne_eq, not_true, not_false_iff, Bool.true_eq_false]
  refine ⟨trivial, trivial, ?_, ?_⟩
  · intro hmem
    simp only [List.mem_cons, List.mem_append, List.mem_nil_iff] at hmem
    simp [hloop] at hmem
  · exact ⟨Event.updateBegin dw.contentLength :: (dlLoop true dw.contentLength.toNat dw.chunks 0).2,
      by simp⟩

theorem performUpdate_incomplete_witness :
    (performUpdate "http://f" ⟨200, 1000, [900], true, true⟩ true).ret = false ∧
    Event.updateEnd ∉ (performUpdate "http://f" ⟨200, 1000, [900], true, true⟩ true).events := by
  have h := performUpdate_incomplete "http://f" ⟨200, 1000, [900], true, true⟩
    (by decide) rfl (by decide) rfl (by decide)
  exact ⟨h.1, h.2.2.1⟩

/-! ## Claim C4: no flash write without a successful reservation -/

/-- C4: `Update.write` is never invoked unless the advertised content
length is strictly positive and `Update.begin` succeeded; a non-positive
length fails with "Invalid firmware size" and a failed reservation with
"Not enough space for update", in both cases before any flash write and
with the transport released before returning. -/
theorem performUpdate_write_guard (url : String) (dw : DlWorld) :
    ((∃ n, Event.updateWrite n ∈ (performUpdate url dw true).events) →
      0 < dw.contentLength ∧ dw.beginOk = true) ∧
    (clientProtocolOk url = true → dw.httpCode = 200 → dw.contentLength ≤ 0 →
      (performUpdate url dw true).ret = false ∧
      (performUpdate url dw true).inProgress = false ∧
      (performUpdate url dw true).events =
        [Event.notify "Invalid firmware size" (-1), Event.httpEnd]) ∧
    (clientProtocolOk url = true → dw.httpCode = 200 → 0 < dw.contentLength →
      dw.beginOk = false →
      (performUpdate url dw true).ret = false ∧
      (performUpdate url dw true).inProgress = false ∧
      (performUpdate url dw true).events =
        [Event.notify "Not enough space for update" (-1), Event.httpEnd]) := by
  refine ⟨?_, ?_, ?_⟩
  · rintro ⟨n, hmem⟩
    unfold performUpdate at hmem
    split_ifs at hmem with h1 h2 h3 h4 <;> simp_all [notifyE]
  · intro hproto hcode hle
    unfold performUpdate
    rw [hproto, hcode]
    simp [hle, notifyE]
  · intro hproto hcode hpos hbegin
    unfold performUpdate
    rw [hproto, hcode, hbegin]
    simp [not_le.mpr hpos, notifyE]

theorem performUpdate_write_guard_witness :
    (performUpdate "http://f" ⟨200, 0, [64], true, true⟩ true).events =
      [Event.notify "Invalid firmware size" (-1), Event.httpEnd] := by
  exact ((performUpdate_write_guard "http://f" ⟨200, 0, [64], true, true⟩).2.1
    (by decide) rfl (by decide)).2.2

/-! ## Claim C6: every failure notifies once and clears the flag -/

/-- The human-readable statuses of the failure paths listed in sections
4.1 to 4.4 of the design. -/
def failStatuses : List String :=
  ["Invalid URL protocol", "Failed to fetch version info", "Failed to parse version info",
   "Invalid version info format", "Failed to download firmware", "Invalid firmware size",
   "Not enough space for update", "Download incomplete", "Update failed"]

def isFailNotify (e : Event) : Bool :=
  match e with
  | Event.notify s _ => failStatuses.contains s
  | _ => false

/-- Number of failure-status notifications in a trace. -/
def failCount (evs : List Event) : Nat :=
  (evs.filter isFailNotify).length

/-- The fetch part of a cycle succeeded: valid endpoint scheme, HTTP
200, parseable body, both metadata fields present. -/
def fetchOk (cfg : Config) (fw : FetchWorld) : Prop :=
  clientProtocolOk cfg.jsonEndpoint = true ∧ fw.httpCode = 200 ∧ fw.parseOk = true ∧
  fw.version.isSome = true ∧ fw.firmwareUrl.isSome = true

lemma notifyE_true (s : String) (p : Int) : notifyE true s p = [Event.notify s p] := rfl

lemma notifyE_false (s : String) (p : Int) : notifyE false s p = [] := rfl

lemma isFailNotify_notify (s : String) (p : Int) :
    isFailNotify (Event.notify s p) = failStatuses.contains s := rfl

lemma isFailNotify_httpEnd : isFailNotify Event.httpEnd = false := rfl

lemma isFailNotify_updBegin (n : Int) : isFailNotify (Event.updateBegin n) = false := rfl

lemma isFailNotify_updWrite (n : Nat) : isFailNotify (Event.updateWrite n) = false := rfl

lemma isFailNotify_updAbort : isFailNotify Event.updateAbort = false := rfl

lemma isFailNotify_updEnd : isFailNotify Event.updateEnd = false := rfl

lemma isFailNotify_restart : isFailNotify Event.restart = false := rfl

lemma failCount_append (a b : List Event) :
    failCount (a ++ b) = failCount a + failCount b := by
  simp [failCount, List.filter_append]

lemma failCount_cons (e : Event) (l : List Event) :
    failCount (e :: l) = (if isFailNotify e then 1 else 0) + failCount l := by
  simp only [failCount, List.filter_cons]
  split <;> simp [Nat.add_comm]

lemma dlLoop_failCount (hasCb : Bool) (cl : Nat) (ch : List Nat) (w : Nat) :
    failCount (dlLoop hasCb cl ch w).2 = 0 := by
  simp only [failCount, List.length_eq_zero, List.filter_eq_nil_iff]
  intro e he
  rcases dlLoop_mem hasCb cl ch w e he with ⟨n, hn⟩ | ⟨_, p, hp⟩ <;> subst_vars <;>
    simp [isFailNotify, failStatuses]

lemma failCount_nil : failCount [] = 0 := rfl

lemma performUpdate_fail_once (url : String) (dw : DlWorld)
    (hret : (performUpdate url dw true).ret = false) :
    failCount (performUpdate url dw true).events = 1 ∧
    (performUpdate url dw true).inProgress = false := by
  have hdl0 := dlLoop_failCount true dw.contentLength.toNat dw.chunks 0
  simp only [performUpdate, ne_eq] at hret ⊢
  split_ifs at hret ⊢ with h1 h2 h3 h4 h5 h6
  all_goals try exact ⟨by decide, rfl⟩
  all_goals refine ⟨?_, rfl⟩
  all_goals
    simp only [failCount_cons, failCount_append, failCount_nil, hdl0, notifyE_true,
      isFailNotify_notify, isFailNotify_httpEnd, isFailNotify_updBegin, isFailNotify_updEnd,
      isFailNotify_updAbort]
  all_goals rfl

/-- C6: every update cycle that fails at any step (invalid protocol,
HTTP failure, parse failure, malformed metadata, download failure,
invalid size, insufficient space, incomplete download, or commit
failure) emits exactly one failure-status notification and returns with
the in-progress flag cleared, so the next tick can start a fresh
cycle. -/
theorem checkVersion_failure_notifies_once (cfg : Config) (fw : FetchWorld) (dw : DlWorld)
    (hret : (checkVersion cfg fw dw true).ret = false)
    (hnup : ¬ (fetchOk cfg fw ∧ ∀ lv, fw.version = some lv →
      0 ≤ compareVersions cfg.currentVersion lv fw.env)) :
    failCount (checkVersion cfg fw dw true).events = 1 ∧
    (checkVersion cfg fw dw true).inProgress = false := by
  unfold checkVersion at hret ⊢
  split_ifs at hret ⊢ with h1 h2 h3 h4 h5
  · exact ⟨rfl, rfl⟩
  · exact ⟨rfl, rfl⟩
  · exact ⟨rfl, rfl⟩
  · exact ⟨rfl, rfl⟩
  · have hret2 : (performUpdate (fw.firmwareUrl.getD "") dw true).ret = false := hret
    have hp := performUpdate_fail_once (fw.firmwareUrl.getD "") dw hret2
    refine ⟨?_, hp.2⟩
    show failCount (Event.httpEnd :: (performUpdate (fw.firmwareUrl.getD "") dw true).events) = 1
    rw [failCount_cons, isFailNotify_httpEnd]
    simp [hp.1]
  · exfalso
    apply hnup
    rw [Bool.or_eq_true, not_or] at h4
    obtain ⟨h4v, h4u⟩ := h4
    constructor
    · refine ⟨by simpa using h1, by simpa using h2, by simpa using h3, ?_, ?_⟩
      · cases hfv : fw.version with
        | none => rw [hfv] at h4v; simp at h4v
        | some lv => rfl
      · cases hfu : fw.firmwareUrl with
        | none => rw [hfu] at h4u; simp at h4u
        | some fu => rfl
    · intro lv2 hlv2
      rw [hlv2] at h5
      simp only [Option.getD_some] at h5
      exact not_lt.mp h5

theorem checkVersion_failure_notifies_once_witness :
    failCount (checkVersion ⟨"s", "p", "1.0.0", "http://e", 1000, true, false⟩
      ⟨500, true, some "2.0.0", some "http://f", ⟨0, 0, 0, 0, 0, 0⟩⟩
      ⟨200, 10, [10], true, true⟩ true).events = 1 := by
  exact (checkVersion_failure_notifies_once ⟨"s", "p", "1.0.0", "http://e", 1000, true, false⟩
    ⟨500, true, some "2.0.0", some "http://f", ⟨0, 0, 0, 0, 0, 0⟩⟩
    ⟨200, 10, [10], true, true⟩ (by decide) (by intro hco; exact absurd hco.1.2.1 (by decide))).1

/-! ## Claim C5: idle ticks are no-ops -/

/-- C5: a poll tick starts a cycle only when the in-progress flag is
clear and the configured interval has elapsed; any sequence of `handle`
calls in which, at each tick, the flag is set or the interval has not
elapsed performs no work at all: no events (hence no network activity),
no cycle started, state unchanged. -/
theorem handle_idle_noop (cfg : Config) (st : ClientState) (hasCb : Bool)
    (ts : List TickWorld)
    (h : ∀ t ∈ ts, st.updateInProgress = true ∨
      elapsedMs t.now st.lastCheck < cfg.checkInterval) :
    handleSeq cfg hasCb st ts = (st, [], 0) := by
  induction ts with
  | nil => rfl
  | cons t rest ih =>
    have ht := h t (List.mem_cons_self t rest)
    have hcond : ¬(st.updateInProgress = false ∧
        cfg.checkInterval ≤ elapsedMs t.now st.lastCheck) := by
      rintro ⟨ha, hb⟩
      rcases ht with ht | ht
      · rw [ht] at ha; exact Bool.noConfusion ha
      · exact absurd hb (not_le.mpr ht)
    have hstep : handleStep cfg st t hasCb = ⟨st, [], false, false⟩ := by
      unfold handleStep
      rw [if_neg hcond]
    simp only [handleSeq, hstep]
    simp [ih (fun t2 ht2 => h t2 (List.mem_cons_of_mem t ht2))]

theorem handle_idle_noop_witness :
    handleSeq ⟨"s", "p", "1.0.0", "http://e", 1000, true, false⟩ true ⟨0, false⟩
      [⟨10, 10, ⟨true, true, ⟨200, true, some "1.0.0", some "http://f", ⟨0, 0, 0, 0, 0, 0⟩⟩,
          ⟨200, 10, [10], true, true⟩⟩⟩,
       ⟨500, 500, ⟨true, true, ⟨200, true, some "1.0.0", some "http://f", ⟨0, 0, 0, 0, 0, 0⟩⟩,
          ⟨200, 10, [10], true, true⟩⟩⟩] = (⟨0, false⟩, [], 0) := by
  apply handle_idle_noop
  intro t ht
  simp only [List.mem_cons, List.mem_singleton, List.not_mem_nil, or_false] at ht
  rcases ht with rfl | rfl
  · right; decide
  · right; decide

/-! ## Claim C10: sentinel progress value and unregistered-callback no-op -/

/-- Observer invocations (status, progress) of a trace. -/
def notifyList (evs : List Event) : List (String × Int) :=
  evs.filterMap (fun e => match e with
    | Event.notify s p => some (s, p)
    | _ => none)

lemma notifyList_mem (evs : List Event) (s : String) (p : Int) :
    (s, p) ∈ notifyList evs ↔ Event.notify s p ∈ evs := by
  unfold notifyList
  rw [List.mem_filterMap]
  constructor
  · rintro ⟨e, he, hm⟩
    cases e <;> simp_all
  · intro he
    exact ⟨_, he, rfl⟩

/-- An event satisfies the sentinel contract: if it is an observer
notification with a status other than "Downloading update", its progress
argument is the sentinel -1. -/
def sentinelOk (e : Event) : Prop :=
  ∀ s p, e = Event.notify s p → s ≠ "Downloading update" → p = -1

lemma sentinelOk_notify_m1 (s : String) : sentinelOk (Event.notify s (-1)) := by
  intro s2 p2 h hne
  injection h with h1 h2
  exact h2.symm

lemma sentinelOk_dl (p : Int) : sentinelOk (Event.notify "Downloading update" p) := by
  intro s2 p2 h hne
  injection h with h1 h2
  exact absurd h1.symm hne

lemma sentinelOk_httpEnd : sentinelOk Event.httpEnd := fun _ _ h => Event.noConfusion h

lemma sentinelOk_updBegin (n : Int) : sentinelOk (Event.updateBegin n) :=
  fun _ _ h => Event.noConfusion h

lemma sentinelOk_updWrite (n : Nat) : sentinelOk (Event.updateWrite n) :=
  fun _ _ h => Event.noConfusion h

lemma sentinelOk_updAbort : sentinelOk Event.updateAbort := fun _ _ h => Event.noConfusion h

lemma sentinelOk_updEnd : sentinelOk Event.updateEnd := fun _ _ h => Event.noConfusion h

lemma sentinelOk_restart : sentinelOk Event.restart := fun _ _ h => Event.noConfusion h

lemma dlLoop_sentinelOk (hasCb : Bool) (cl : Nat) (ch : List Nat) (w : Nat) :
    ∀ e ∈ (dlLoop hasCb cl ch w).2, sentinelOk e := by
  intro e he
  rcases dlLoop_mem hasCb cl ch w e he with ⟨n, rfl⟩ | ⟨_, p, rfl⟩
  · exact sentinelOk_updWrite n
  · exact sentinelOk_dl p

lemma performUpdate_sentinelOk (url : String) (dw : DlWorld) :
    ∀ e ∈ (performUpdate url dw true).events, sentinelOk e := by
  unfold performUpdate
  by_cases hdlc : (dlLoop true dw.contentLength.toNat dw.chunks 0).1 ≠ dw.contentLength.toNat <;>
    split_ifs <;>
    simp only [hdlc, ne_eq, not_not, not_false_iff, not_true, if_true, if_false, ite_true,
      ite_false, notifyE_true, List.forall_mem_cons, List.forall_mem_append,
      List.forall_mem_singleton, List.forall_mem_nil, and_true, true_and] <;>
    repeat' apply And.intro
  all_goals first
    | exact sentinelOk_notify_m1 _
    | exact sentinelOk_httpEnd
    | exact sentinelOk_updBegin _
    | exact sentinelOk_updAbort
    | exact sentinelOk_updEnd
    | exact sentinelOk_restart
    | exact dlLoop_sentinelOk true _ dw.chunks 0
    | exact fun x hx => absurd hx (List.not_mem_nil x)
    | trivial

lemma checkVersion_sentinelOk (cfg : Config) (fw : FetchWorld) (dw : DlWorld) :
    ∀ e ∈ (checkVersion cfg fw dw true).events, sentinelOk e := by
  unfold checkVersion
  split_ifs <;>
    simp only [notifyE_true, List.forall_mem_cons, List.forall_mem_append,
      List.forall_mem_singleton, List.forall_mem_nil, and_true, true_and] <;>
    repeat' apply And.intro
  all_goals first
    | exact sentinelOk_notify_m1 _
    | exact sentinelOk_httpEnd
    | exact performUpdate_sentinelOk _ dw
    | exact fun x hx => absurd hx (List.not_mem_nil x)
    | trivial

lemma checkForUpdate_sentinelOk (cfg : Config) (cw : CycleWorld) :
    ∀ e ∈ (checkForUpdate cfg cw true).events, sentinelOk e := by
  simp only [checkForUpdate]
  split_ifs with h1 h2 h3
  · intro e he
    simp only [notifyE_true, List.mem_singleton] at he
    subst he
    exact sentinelOk_notify_m1 _
  · exact checkVersion_sentinelOk cfg cw.fetch cw.dl
  · intro e he
    rcases List.mem_append.mp he with h | h
    · exact checkVersion_sentinelOk cfg cw.fetch cw.dl e h
    · simp only [notifyE_true, List.mem_singleton] at h
      subst h
      exact sentinelOk_notify_m1 _
  · exact checkVersion_sentinelOk cfg cw.fetch cw.dl

lemma handleStep_sentinelOk (cfg : Config) (st : ClientState) (t : TickWorld) :
    ∀ e ∈ (handleStep cfg st t true).events, sentinelOk e := by
  simp only [handleStep]
  split_ifs
  · exact checkForUpdate_sentinelOk cfg t.cycle
  · exact checkForUpdate_sentinelOk cfg t.cycle
  · intro e he
    exact absurd he (List.not_mem_nil e)

lemma notifyList_nil : notifyList [] = [] := rfl

lemma notifyList_cons_notify (s : String) (p : Int) (l : List Event) :
    notifyList (Event.notify s p :: l) = (s, p) :: notifyList l := rfl

lemma notifyList_cons_httpEnd (l : List Event) :
    notifyList (Event.httpEnd :: l) = notifyList l := rfl

lemma notifyList_cons_updBegin (n : Int) (l : List Event) :
    notifyList (Event.updateBegin n :: l) = notifyList l := rfl

lemma notifyList_cons_updWrite (n : Nat) (l : List Event) :
    notifyList (Event.updateWrite n :: l) = notifyList l := rfl

lemma notifyList_cons_updAbort (l : List Event) :
    notifyList (Event.updateAbort :: l) = notifyList l := rfl

lemma notifyList_cons_updEnd (l : List Event) :
    notifyList (Event.updateEnd :: l) = notifyList l := rfl

lemma notifyList_cons_restart (l : List Event) :
    notifyList (Event.restart :: l) = notifyList l := rfl

lemma notifyList_append (a b : List Event) :
    notifyList (a ++ b) = notifyList a ++ notifyList b := by
  simp [notifyList, List.filterMap_append]

lemma dlLoop_noCb_noNotify (cl : Nat) (ch : List Nat) (w : Nat) :
    notifyList (dlLoop false cl ch w).2 = [] := by
  unfold notifyList
  rw [List.filterMap_eq_nil_iff]
  intro e he
  rcases dlLoop_mem false cl ch w e he with ⟨n, rfl⟩ | ⟨hfalse, _, _⟩
  · rfl
  · exact Bool.noConfusion hfalse

lemma performUpdate_cb_agnostic (url : String) (dw : DlWorld) :
    (performUpdate url dw false).ret = (performUpdate url dw true).ret ∧
    (performUpdate url dw false).inProgress = (performUpdate url dw true).inProgress ∧
    (performUpdate url dw false).restarted = (performUpdate url dw true).restarted ∧
    notifyList (performUpdate url dw false).events = [] := by
  have hfst := dlLoop_fst_cb dw.contentLength.toNat dw.chunks 0 false
  simp only [performUpdate]
  rw [hfst]
  split_ifs <;>
    refine ⟨rfl, rfl, rfl, ?_⟩ <;>
    simp only [notifyE_false, notifyList_append, notifyList_nil, notifyList_cons_httpEnd,
      notifyList_cons_updBegin, notifyList_cons_updAbort, notifyList_cons_updEnd,
      notifyList_cons_restart, dlLoop_noCb_noNotify, List.nil_append, List.append_nil]

lemma checkVersion_cb_agnostic (cfg : Config) (fw : FetchWorld) (dw : DlWorld) :
    (checkVersion cfg fw dw false).ret = (checkVersion cfg fw dw true).ret ∧
    (checkVersion cfg fw dw false).inProgress = (checkVersion cfg fw dw true).inProgress ∧
    (checkVersion cfg fw dw false).restarted = (checkVersion cfg fw dw true).restarted ∧
    notifyList (checkVersion cfg fw dw false).events = [] := by
  have hpu := performUpdate_cb_agnostic (fw.firmwareUrl.getD "") dw
  simp only [checkVersion]
  split_ifs <;>
    first
      | exact ⟨rfl, rfl, rfl, by
          simp only [notifyE_false, notifyList_append, notifyList_nil, notifyList_cons_httpEnd,
            List.nil_append, List.append_nil]⟩
      | exact ⟨hpu.1, hpu.2.1, hpu.2.2.1, by
          rw [notifyList_cons_httpEnd]
          exact hpu.2.2.2⟩

lemma checkForUpdate_cb_agnostic (cfg : Config) (cw : CycleWorld) :
    (checkForUpdate cfg cw false).inProgress = (checkForUpdate cfg cw true).inProgress ∧
    (checkForUpdate cfg cw false).restarted = (checkForUpdate cfg cw true).restarted ∧
    notifyList (checkForUpdate cfg cw false).events = [] := by
  have hcv := checkVersion_cb_agnostic cfg cw.fetch cw.dl
  simp only [checkForUpdate]
  rw [hcv.2.2.1, hcv.1]
  split_ifs
  · exact ⟨rfl, rfl, rfl⟩
  · exact ⟨hcv.2.1, rfl, hcv.2.2.2⟩
  · refine ⟨hcv.2.1, rfl, ?_⟩
    rw [notifyList_append, hcv.2.2.2, notifyE_false, notifyList_nil]
    rfl
  · exact ⟨hcv.2.1, rfl, hcv.2.2.2⟩

/-- C10: every observer notification other than the per-chunk
"Downloading update" progress reports passes the sentinel progress
value -1, and when no callback is registered, notification is a no-op:
the same ticks produce the same state, cycle-start decision and restart
outcome, with no observer invocation at all. -/
theorem handle_notify_contract (cfg : Config) (st : ClientState) (t : TickWorld)
    (s : String) (p : Int) :
    ((s, p) ∈ notifyList (handleStep cfg st t true).events →
      s ≠ "Downloading update" → p = -1) ∧
    ((handleStep cfg st t false).state = (handleStep cfg st t true).state ∧
     (handleStep cfg st t false).started = (handleStep cfg st t true).started ∧
     (handleStep cfg st t false).restarted = (handleStep cfg st t true).restarted ∧
     notifyList (handleStep cfg st t false).events = []) := by
  constructor
  · intro hmem hs
    exact handleStep_sentinelOk cfg st t _ ((notifyList_mem _ s p).mp hmem) s p rfl hs
  · have hcfu := checkForUpdate_cb_agnostic cfg t.cycle
    simp only [handleStep]
    rw [hcfu.2.1]
    split_ifs
    · exact ⟨by rw [hcfu.1], rfl, rfl, hcfu.2.2⟩
    · exact ⟨by rw [hcfu.1], rfl, rfl, hcfu.2.2⟩
    · exact ⟨rfl, rfl, rfl, rfl⟩

theorem handle_notify_contract_witness :
    notifyList (handleStep ⟨"s", "p", "1.0.0", "http://e", 1000, true, false⟩ ⟨0, false⟩
      ⟨2000, 2000, ⟨false, false, ⟨200, true, some "1.0.0", some "http://f", ⟨0, 0, 0, 0, 0, 0⟩⟩,
        ⟨200, 10, [10], true, true⟩⟩⟩ false).events = [] := by
  exact (handle_notify_contract ⟨"s", "p", "1.0.0", "http://e", 1000, true, false⟩ ⟨0, false⟩
    ⟨2000, 2000, ⟨false, false, ⟨200, true, some "1.0.0", some "http://f", ⟨0, 0, 0, 0, 0, 0⟩⟩,
      ⟨200, 10, [10], true, true⟩⟩⟩ "x" 0).2.2.2.2

/-! ## Claim C8: progress reports -/

/-- Progress percentages passed to the observer by the download loop. -/
def progressOf (evs : List Event) : List Int :=
  evs.filterMap (fun e => match e with
    | Event.notify s p => if s = "Downloading update" then some p else none
    | _ => none)

/-- The successive values of `written` after each executed chunk of the
download loop (same recursion structure as `dlLoop`). -/
def dlWrittens (cl : Nat) : List Nat → Nat → List Nat
  | [], _ => []
  | c :: rest, w =>
    if w < cl then
      if c = 0 then dlWrittens cl rest w
      else (w + min c 1024) :: dlWrittens cl rest (w + min c 1024)
    else []

/-- The progress value reported for a byte count `u`:
`(int)((written * 100) / contentLength)` in 32-bit arithmetic. -/
def gp (cl u : Nat) : Int := u32ToInt (u * 100 % u32Mod / cl)

lemma progressOf_nil : progressOf [] = [] := rfl

lemma progressOf_cons_dl (p : Int) (l : List Event) :
    progressOf (Event.notify "Downloading update" p :: l) = p :: progressOf l := rfl

lemma progressOf_cons_httpEnd (l : List Event) :
    progressOf (Event.httpEnd :: l) = progressOf l := rfl

lemma progressOf_cons_updBegin (n : Int) (l : List Event) :
    progressOf (Event.updateBegin n :: l) = progressOf l := rfl

lemma progressOf_cons_updWrite (n : Nat) (l : List Event) :
    progressOf (Event.updateWrite n :: l) = progressOf l := rfl

lemma progressOf_cons_updEnd (l : List Event) :
    progressOf (Event.updateEnd :: l) = progressOf l := rfl

lemma progressOf_cons_restart (l : List Event) :
    progressOf (Event.restart :: l) = progressOf l := rfl

lemma progressOf_cons_notify (s : String) (p : Int) (l : List Event) (hs : s ≠ "Downloading update") :
    progressOf (Event.notify s p :: l) = progressOf l := by
  simp [progressOf, hs]

lemma progressOf_append (a b : List Event) :
    progressOf (a ++ b) = progressOf a ++ progressOf b := by
  simp [progressOf, List.filterMap_append]

/-- The loop's final byte count is the last element of `dlWrittens`
(or the initial count when no chunk was executed). -/
lemma dlLoop_fst_writtens (hasCb : Bool) (cl : Nat) :
    ∀ (ch : List Nat) (w : Nat),
      (dlLoop hasCb cl ch w).1 = (dlWrittens cl ch w).getLastD w := by
  intro ch
  induction ch with
  | nil => intro w; rfl
  | cons c rest ih =>
    intro w
    simp only [dlLoop, dlWrittens]
    split_ifs with h1 h2
    · exact ih w
    · rw [List.getLastD_cons]
      exact ih (w + min c 1024)
    · rfl

/-- The reported progress values are exactly `gp` of the successive
byte counts. -/
lemma progressOf_dlLoop (cl : Nat) :
    ∀ (ch : List Nat) (w : Nat),
      progressOf (dlLoop true cl ch w).2 = (dlWrittens cl ch w).map (gp cl) := by
  intro ch
  induction ch with
  | nil => intro w; rfl
  | cons c rest ih =>
    intro w
    simp only [dlLoop, dlWrittens]
    split_ifs with h1 h2
    · exact ih w
    · simp only [notifyE_true, List.singleton_append, progressOf_cons_updWrite,
        progressOf_cons_dl, List.map_cons]
      rw [ih (w + min c 1024)]
      rfl
    · rfl

/-- Along the loop, the byte counts strictly increase and every executed
chunk leaves at most `cl + 1023` bytes written (a chunk only runs when
`written < cl` and adds at most 1024 bytes). -/
lemma dlWrittens_chain (cl : Nat) :
    ∀ (ch : List Nat) (w : Nat),
      List.Chain' (fun a b => a < b ∧ b ≤ cl + 1023) (w :: dlWrittens cl ch w) := by
  intro ch
  induction ch with
  | nil => intro w; exact List.chain'_singleton w
  | cons c rest ih =>
    intro w
    simp only [dlWrittens]
    split_ifs with h1 h2
    · exact ih w
    · rw [List.chain'_cons]
      refine ⟨⟨?_, ?_⟩, ih (w + min c 1024)⟩
      · omega
      · omega
    · exact List.chain'_singleton w

lemma dlWrittens_le (cl : Nat) :
    ∀ (ch : List Nat) (w : Nat), ∀ u ∈ dlWrittens cl ch w, u ≤ cl + 1023 := by
  intro ch
  induction ch with
  | nil => intro w u hu; simp [dlWrittens] at hu
  | cons c rest ih =>
    intro w u hu
    simp only [dlWrittens] at hu
    split_ifs at hu with h1 h2
    · exact ih w u hu
    · rcases List.mem_cons.mp hu with rfl | hu2
      · omega
      · exact ih (w + min c 1024) u hu2
    · simp at hu

lemma div_lt_two31 (cl u : Nat) (hcl : 0 < cl) (hu : u ≤ cl + 1023)
    (hov : (cl + 1023) * 100 < u32Mod) : u * 100 / cl < 2147483648 := by
  rcases Nat.lt_or_ge cl 2 with h2 | h2
  · have hcl1 : cl = 1 := by omega
    subst hcl1
    simp only [Nat.div_one]
    omega
  · have hle : u * 100 / cl ≤ u * 100 / 2 := Nat.div_le_div_left h2 (by norm_num)
    have hlt : u * 100 < u32Mod := by
      calc u * 100 ≤ (cl + 1023) * 100 := Nat.mul_le_mul_right 100 hu
      _ < u32Mod := hov
    have h3 : u * 100 / 2 < 2147483648 := by
      unfold u32Mod at hlt
      omega
    omega

lemma gp_mono (cl : Nat) (hcl : 0 < cl) (hov : (cl + 1023) * 100 < u32Mod)
    (x y : Nat) (hxy : x ≤ y) (hy : y ≤ cl + 1023) : gp cl x ≤ gp cl y := by
  have hx100 : x * 100 < u32Mod := by
    calc x * 100 ≤ (cl + 1023) * 100 := Nat.mul_le_mul_right 100 (hxy.trans hy)
    _ < u32Mod := hov
  have hy100 : y * 100 < u32Mod := by
    calc y * 100 ≤ (cl + 1023) * 100 := Nat.mul_le_mul_right 100 hy
    _ < u32Mod := hov
  have hqx := div_lt_two31 cl x hcl (hxy.trans hy) hov
  have hqy := div_lt_two31 cl y hcl hy hov
  unfold gp u32ToInt
  rw [Nat.mod_eq_of_lt hx100, Nat.mod_eq_of_lt hy100, if_pos hqx, if_pos hqy]
  exact_mod_cast Nat.div_le_div_right (Nat.mul_le_mul_right 100 hxy)

lemma gp_self (cl : Nat) (hcl : 0 < cl) (hov : (cl + 1023) * 100 < u32Mod) :
    gp cl cl = 100 := by
  have h100 : cl * 100 < u32Mod := by
    calc cl * 100 ≤ (cl + 1023) * 100 := Nat.mul_le_mul_right 100 (by omega)
    _ < u32Mod := hov
  unfold gp u32ToInt
  rw [Nat.mod_eq_of_lt h100, Nat.mul_comm, Nat.mul_div_cancel _ hcl, if_pos (by norm_num)]
  rfl

lemma chain'_map_mono (f : Nat → Int) (B : Nat)
    (hf : ∀ x y, x ≤ y → y ≤ B → f x ≤ f y) :
    ∀ (l : List Nat) (w : Nat),
      List.Chain' (fun a b => a < b ∧ b ≤ B) (w :: l) →
      List.Chain' (fun a b : Int => a ≤ b) (l.map f) := by
  intro l
  induction l with
  | nil => intro w h; simp
  | cons x rest ih =>
    intro w h
    obtain ⟨hwx, h2⟩ := List.chain'_cons.mp h
    cases rest with
    | nil => simp
    | cons y rest2 =>
      obtain ⟨hxy, h3⟩ := List.chain'_cons.mp h2
      rw [List.map_cons, List.map_cons, List.chain'_cons]
      constructor
      · exact hf x y (le_of_lt hxy.1) hxy.2
      · rw [← List.map_cons]
        exact ih x (List.chain'_cons.mpr ⟨hxy, h3⟩)

lemma getLastD_map (f : Nat → Int) :
    ∀ (l : List Nat) (d : Nat), (l.map f).getLastD (f d) = f (l.getLastD d) := by
  intro l
  induction l with
  | nil => intro d; rfl
  | cons x rest ih =>
    intro d
    rw [List.map_cons, List.getLastD_cons, List.getLastD_cons]
    exact ih x

lemma getLast?_eq_some_getLastD :
    ∀ (l : List Int) (d : Int), l ≠ [] → l.getLast? = some (l.getLastD d) := by
  intro l
  induction l with
  | nil => intro d h; exact absurd rfl h
  | cons a t ih =>
    intro d h
    cases t with
    | nil => rfl
    | cons b t2 =>
      rw [List.getLast?_cons_cons, List.getLastD_cons]
      exact ih a (by simp)

lemma progressOf_cons_complete (p : Int) (l : List Event) :
    progressOf (Event.notify "Update complete, restarting..." p :: l) = progressOf l := rfl

/-- C8 (amended): for a successful download whose advertised length is
small enough that `written * 100` never exceeds 2^32 - 1 (true of any
image that can exist on the device), the reported percentages are
exactly `(written * 100) / contentLength` at the successive byte counts,
form a non-decreasing sequence, and the final report is 100.  With a
32-bit `size_t`, an advertised length of about 43 MB or more makes
`written * 100` wrap and violates both properties. -/
theorem performUpdate_progress (url : String) (dw : DlWorld)
    (hov : (dw.contentLength.toNat + 1023) * 100 < u32Mod)
    (hret : (performUpdate url dw true).ret = true) :
    progressOf (performUpdate url dw true).events =
      (dlWrittens dw.contentLength.toNat dw.chunks 0).map (gp dw.contentLength.toNat) ∧
    List.Pairwise (fun a b : Int => a ≤ b) (progressOf (performUpdate url dw true).events) ∧
    (progressOf (performUpdate url dw true).events).getLast? = some 100 := by
  simp only [performUpdate, ne_eq] at hret ⊢
  split_ifs at hret ⊢ with h1 h2 h3 h4 h5 h6
  simp only [notifyE_true, List.cons_append, List.singleton_append, progressOf_cons_updBegin,
    progressOf_append, progressOf_cons_httpEnd, progressOf_cons_updEnd, progressOf_cons_complete,
    progressOf_cons_restart, progressOf_nil, List.append_nil, progressOf_dlLoop]
  have hcl : 0 < dw.contentLength.toNat := by omega
  have hwr := dlLoop_fst_writtens true dw.contentLength.toNat dw.chunks 0
  have hlastw : (dlWrittens dw.contentLength.toNat dw.chunks 0).getLastD 0 =
      dw.contentLength.toNat := by
    rw [← hwr]
    exact h5
  have hne : dlWrittens dw.contentLength.toNat dw.chunks 0 ≠ [] := by
    intro hnil
    rw [hnil] at hlastw
    simp only [List.getLastD_nil] at hlastw
    omega
  refine ⟨trivial, ?_, ?_⟩
  · exact List.chain'_iff_pairwise.mp
      (chain'_map_mono (gp dw.contentLength.toNat) (dw.contentLength.toNat + 1023)
        (fun x y hxy hy => gp_mono dw.contentLength.toNat hcl hov x y hxy hy)
        (dlWrittens dw.contentLength.toNat dw.chunks 0) 0
        (dlWrittens_chain dw.contentLength.toNat dw.chunks 0))
  · rw [getLast?_eq_some_getLastD _ (gp dw.contentLength.toNat 0) (by simpa using hne)]
    rw [getLastD_map, hlastw, gp_self dw.contentLength.toNat hcl hov]

theorem performUpdate_progress_witness :
    (progressOf (performUpdate "http://f" ⟨200, 10, [10], true, true⟩ true).events).getLast? =
      some 100 := by
  exact (performUpdate_progress "http://f" ⟨200, 10, [10], true, true⟩ (by decide) (by decide)).2.2

lemma dlWrittens_replicate (cl : Nat) :
    ∀ (n w : Nat), w + 1024 * n ≤ cl →
      dlWrittens cl (List.replicate n 1024) w =
        (List.range n).map (fun k => w + 1024 * (k + 1)) := by
  intro n
  induction n with
  | zero => intro w h; rfl
  | succ m ih =>
    intro w h
    rw [List.replicate_succ]
    simp only [dlWrittens]
    rw [if_pos (by omega), if_neg (by decide), min_self]
    rw [ih (w + 1024) (by omega)]
    rw [List.range_succ_eq_map, List.map_cons, List.map_map]
    have hfun : ((fun k => w + 1024 * (k + 1)) ∘ Nat.succ) =
        fun k => w + 1024 + 1024 * (k + 1) := by
      funext k
      simp only [Function.comp_apply]
      omega
    rw [hfun]

lemma pairwise_get? {R : Int → Int → Prop} :
    ∀ (l : List Int), List.Pairwise R l →
      ∀ (i : Nat) (a b : Int), l.get? i = some a → l.get? (i + 1) = some b → R a b := by
  intro l
  induction l with
  | nil => intro h i a b ha hb; simp at ha
  | cons x t ih =>
    intro h i a b ha hb
    obtain ⟨hx, h2⟩ := List.pairwise_cons.mp h
    cases i with
    | zero =>
      simp only [List.get?_cons_zero] at ha
      simp only [List.get?_cons_succ] at hb
      injection ha with ha2
      rw [← ha2]
      exact hx b (List.get?_mem hb)
    | succ j =>
      simp only [List.get?_cons_succ] at ha hb
      exact ih h2 j a b ha hb

/-- C8 counterexample: with an advertised length of 42991616 bytes
(about 41 MB) delivered in 41984 full 1024-byte chunks, the download
succeeds (the device would reboot), but `written * 100` overflows the
32-bit `size_t` during the loop: the reported percentages reach 99 and
then drop to 0, and the final report before completion is 0, not 100. -/
theorem performUpdate_progress_cex :
    (performUpdate "http://f" ⟨200, 42991616, List.replicate 41984 1024, true, true⟩ true).ret
      = true ∧
    ¬ List.Pairwise (fun a b : Int => a ≤ b)
      (progressOf (performUpdate "http://f"
        ⟨200, 42991616, List.replicate 41984 1024, true, true⟩ true).events) ∧
    (progressOf (performUpdate "http://f"
      ⟨200, 42991616, List.replicate 41984 1024, true, true⟩ true).events).getLast? ≠
      some 100 := by
  have htn : (42991616 : Int).toNat = 42991616 := rfl
  have hproto : clientProtocolOk "http://f" = true := by decide
  have hw : dlWrittens 42991616 (List.replicate 41984 1024) 0 =
      (List.range 41984).map (fun k => 0 + 1024 * (k + 1)) :=
    dlWrittens_replicate 42991616 41984 0 (by norm_num)
  have hlastw : (dlWrittens 42991616 (List.replicate 41984 1024) 0).getLastD 0 = 42991616 := by
    rw [hw, show (41984 : Nat) = 41983 + 1 from rfl, List.range_succ, List.map_append]
    rw [List.map_cons, List.map_nil, List.getLastD_concat]
  have hfst : (dlLoop true 42991616 (List.replicate 41984 1024) 0).1 = 42991616 := by
    rw [dlLoop_fst_writtens]
    exact hlastw
  have hrep : progressOf (performUpdate "http://f"
      ⟨200, 42991616, List.replicate 41984 1024, true, true⟩ true).events =
      (dlWrittens 42991616 (List.replicate 41984 1024) 0).map (gp 42991616) := by
    simp only [performUpdate, ne_eq, hproto, htn, hfst]
    norm_num
    rw [progressOf_cons_updBegin, progressOf_append, progressOf_cons_httpEnd,
      progressOf_cons_updEnd, notifyE_true, List.singleton_append, progressOf_cons_complete,
      progressOf_cons_restart, progressOf_nil, List.append_nil, progressOf_dlLoop]
  have hrep2 : progressOf (performUpdate "http://f"
      ⟨200, 42991616, List.replicate 41984 1024, true, true⟩ true).events =
      (List.range 41984).map (gp 42991616 ∘ fun k => 0 + 1024 * (k + 1)) := by
    rw [hrep, hw, List.map_map]
  have h42 : ((List.range 41984).map (gp 42991616 ∘ fun k => 0 + 1024 * (k + 1))).get? 41942 =
      some 99 := by
    rw [List.get?_map, List.get?_range (by norm_num)]
    decide
  have h43 : ((List.range 41984).map (gp 42991616 ∘ fun k => 0 + 1024 * (k + 1))).get? 41943 =
      some 0 := by
    rw [List.get?_map, List.get?_range (by norm_num)]
    decide
  refine ⟨?_, ?_, ?_⟩
  · simp only [performUpdate, ne_eq, hproto, htn, hfst]
    norm_num
  · rw [hrep2]
    intro hch
    have hinst := pairwise_get? _ hch 41942 99 0 h42 h43
    norm_num at hinst
  · rw [hrep2, show (41984 : Nat) = 41983 + 1 from rfl, List.range_succ, List.map_append,
      List.map_cons, List.map_nil, List.getLast?_concat]
    decide

end BitFlash
